import Mathlib

/-!
Verification of the batched RNNT hypothesis accumulators from
`nemo/collections/asr/parts/utils/rnnt_utils.py`.

Tensors of shape `[B]` / `[B, L]` / `[B, K, L]` are embedded as total
functions `Nat → _` / `Nat → Nat → _` / `Nat → Nat → Nat → _`; entries at
indices beyond the tensor's real extent are phantom coordinates that no
theorem below inspects.  Float scores are embedded as exact rationals
(`Rat`), label and time indices as integers (`Int`), lengths as naturals.
-/

set_option maxHeartbeats 1000000

/-- Shallow embedding of the state of `BatchedHyps` (greedy decoding buffer):
per batch item `b`, a write cursor `currentLengths b`, label/timestep rows of
capacity `maxLength`, an accumulated score, and the last-timestep bookkeeping. -/
structure BatchedHyps where
  batchSize : Nat
  maxLength : Nat
  currentLengths : Nat → Nat
  transcript : Nat → Nat → Int
  timesteps : Nat → Nat → Int
  scores : Nat → Rat
  lastTimestep : Nat → Int
  lastTimestepLasts : Nat → Int

/-- `BatchedHyps.__init__`: validates `init_length > 0` and `batch_size > 0`
(`ValueError` otherwise, embedded as `Except.error`), then zero-initializes all
buffers; `last_timestep` is filled with `-1`. -/
def BatchedHyps.init (batch_size init_length : Nat) : Except String BatchedHyps :=
  if init_length ≤ 0 then .error "init_length must be > 0"
  else if batch_size ≤ 0 then .error "batch_size must be > 0"
  else .ok
    { batchSize := batch_size
      maxLength := init_length
      currentLengths := fun _ => 0
      transcript := fun _ _ => 0
      timesteps := fun _ _ => 0
      scores := fun _ => 0
      lastTimestep := fun _ => -1
      lastTimestepLasts := fun _ => 0 }

/-- `BatchedHyps.clear_`: resets counters and zeroes buffers in place. -/
def BatchedHyps.clear_ (s : BatchedHyps) : BatchedHyps :=
  { s with
    currentLengths := fun _ => 0
    transcript := fun _ _ => 0
    timesteps := fun _ _ => 0
    scores := fun _ => 0
    lastTimestep := fun _ => -1
    lastTimestepLasts := fun _ => 0 }

/-- `BatchedHyps._allocate_more`: doubles capacity; `torch.cat` with
`zeros_like` makes positions in `[maxLength, 2*maxLength)` hold `0`. -/
def BatchedHyps.allocate_more (s : BatchedHyps) : BatchedHyps :=
  { s with
    transcript := fun b p => if p < s.maxLength then s.transcript b p else 0
    timesteps := fun b p => if p < s.maxLength then s.timesteps b p else 0
    maxLength := 2 * s.maxLength }

/-- `tensor.max()` over the `B` real entries of a `[B]` tensor of naturals. -/
def natMaxOver (n : Nat) (f : Nat → Nat) : Nat :=
  (List.range n).foldl (fun m b => max m (f b)) 0

/-- `BatchedHyps.add_results_no_checks_`: scatter update at the active indices.
The source passes `labels`/`time_indices`/`scores` packed parallel to
`active_indices`; here they are given as functions of the batch index (the
packed tensor entry for active index `b` is `labels b`, etc.), and the scatter
(whose indices are distinct in any valid call) acts simultaneously on all
active rows: score accumulation, one write at the cursor of each active row,
last-timestep bookkeeping, cursor increment. -/
def BatchedHyps.add_results_no_checks_ (s : BatchedHyps) (active_indices : List Nat)
    (labels time_indices : Nat → Int) (step_scores : Nat → Rat) : BatchedHyps :=
  { s with
    scores := fun b => if b ∈ active_indices then s.scores b + step_scores b else s.scores b
    transcript := fun b p =>
      if b ∈ active_indices ∧ p = s.currentLengths b then labels b else s.transcript b p
    timesteps := fun b p =>
      if b ∈ active_indices ∧ p = s.currentLengths b then time_indices b else s.timesteps b p
    lastTimestepLasts := fun b =>
      if b ∈ active_indices then
        (if s.lastTimestep b = time_indices b then s.lastTimestepLasts b + 1 else 1)
      else s.lastTimestepLasts b
    lastTimestep := fun b => if b ∈ active_indices then time_indices b else s.lastTimestep b
    currentLengths := fun b =>
      if b ∈ active_indices then s.currentLengths b + 1 else s.currentLengths b }

/-- `BatchedHyps.add_results_`: returns unchanged on an empty active set,
doubles capacity when `current_lengths.max() >= _max_length`, then performs the
unchecked scatter update. -/
def BatchedHyps.add_results_ (s : BatchedHyps) (active_indices : List Nat)
    (labels time_indices : Nat → Int) (step_scores : Nat → Rat) : BatchedHyps :=
  if active_indices = [] then s
  else
    let s1 := if natMaxOver s.batchSize s.currentLengths ≥ s.maxLength then s.allocate_more else s
    s1.add_results_no_checks_ active_indices labels time_indices step_scores

/-- `BatchedHyps.add_results_masked_no_checks_`: branch-free masked update.
Scores, last-timestep bookkeeping and cursors advance only under the mask, but
`transcript`/`timesteps` are written at every row's cursor position regardless
of the mask (positions of inactive rows lie at the cursor, beyond the stored
prefix). -/
def BatchedHyps.add_results_masked_no_checks_ (s : BatchedHyps) (active_mask : Nat → Bool)
    (labels time_indices : Nat → Int) (step_scores : Nat → Rat) : BatchedHyps :=
  { s with
    scores := fun b => if active_mask b then s.scores b + step_scores b else s.scores b
    transcript := fun b p => if p = s.currentLengths b then labels b else s.transcript b p
    timesteps := fun b p => if p = s.currentLengths b then time_indices b else s.timesteps b p
    lastTimestepLasts := fun b =>
      if active_mask b ∧ s.lastTimestep b = time_indices b then s.lastTimestepLasts b + 1
      else if active_mask b ∧ s.lastTimestep b ≠ time_indices b then 1
      else s.lastTimestepLasts b
    lastTimestep := fun b => if active_mask b then time_indices b else s.lastTimestep b
    currentLengths := fun b =>
      s.currentLengths b + (if active_mask b then 1 else 0) }

/-- `BatchedHyps.add_results_masked_`: doubles capacity when the prospective
maximum `(current_lengths + active_mask).max()` reaches `_max_length`, then
performs the branch-free masked update. -/
def BatchedHyps.add_results_masked_ (s : BatchedHyps) (active_mask : Nat → Bool)
    (labels time_indices : Nat → Int) (step_scores : Nat → Rat) : BatchedHyps :=
  let s1 :=
    if natMaxOver s.batchSize (fun b => s.currentLengths b + (if active_mask b then 1 else 0))
        ≥ s.maxLength then s.allocate_more else s
  s1.add_results_masked_no_checks_ active_mask labels time_indices step_scores

/-- `Hypothesis` result record (the fields touched by the accumulators).
Tensor-valued fields are embedded as lists; the `length` field keeps its
source default `0`. -/
structure Hypothesis where
  score : Rat
  ySequence : List Int
  labelScore : Option Rat := none
  blankScore : Option Rat := none
  tokenScores : Option (List Rat) := none
  timestep : List Int := []
  alignments : Option (List (List (List Rat × Int))) := none
  frameConfidence : Option (List (List Rat)) := none
  length : Nat := 0
deriving DecidableEq

/-- Shallow embedding of the state of `BatchedAlignments`: per-frame timesteps,
labels (blanks included), logits (a vector per frame) and confidence rows. -/
structure BatchedAlignments where
  batchSize : Nat
  maxLength : Nat
  withAlignments : Bool
  withFrameConfidence : Bool
  currentLengths : Nat → Nat
  timesteps : Nat → Nat → Int
  logits : Nat → Nat → List Rat
  labels : Nat → Nat → Int
  frameConfidence : Nat → Nat → Rat

/-- `torch.unique_consecutive(·, return_counts=True)` counts: the lengths of
maximal runs of consecutive equal values, in order.  Helper carrying the
current run's value and length. -/
def runLengthsAux (a : Int) (n : Nat) : List Int → List Nat
  | [] => [n]
  | b :: t => if b = a then runLengthsAux a (n + 1) t else n :: runLengthsAux b 1 t

/-- Run lengths of consecutive equal values of a list, in order. -/
def runLengths : List Int → List Nat
  | [] => []
  | a :: t => runLengthsAux a 1 t

/-- The per-run groups built by the materializer's inner loop: for each run
count `c`, the group of `c` consecutive row entries starting at the running
offset `start`. -/
def groupsFrom {α : Type} (row : Nat → α) (start : Nat) : List Nat → List (List α)
  | [] => []
  | c :: cs => ((List.range c).map (fun j => row (start + j))) :: groupsFrom row (start + c) cs

/-- One entry of the greedy part of `batched_hyps_to_hypotheses`: score, the
transcript and timestep rows sliced to `current_lengths[i]`; `alignments` is
set to `None` and the `length` field is left at its dataclass default. -/
def materializeGreedyOne (s : BatchedHyps) (i : Nat) : Hypothesis :=
  { score := s.scores i
    ySequence := (List.range (s.currentLengths i)).map (s.transcript i)
    timestep := (List.range (s.currentLengths i)).map (s.timesteps i)
    alignments := none }

/-- The alignment post-pass of `batched_hyps_to_hypotheses` for item `i`:
groups the recorded per-frame trace by runs of consecutive equal timesteps
(`torch.unique_consecutive`), collecting `(logits, label)` pairs per group when
alignments are stored and confidence values per group when confidence is
stored. -/
def materializeAlignedOne (s : BatchedHyps) (al : BatchedAlignments) (i : Nat) : Hypothesis :=
  let counts := runLengths ((List.range (al.currentLengths i)).map (al.timesteps i))
  { materializeGreedyOne s i with
    alignments := some (if al.withAlignments then
      groupsFrom (fun p => (al.logits i p, al.labels i p)) 0 counts else [])
    frameConfidence := if al.withFrameConfidence then
      some (groupsFrom (fun p => al.frameConfidence i p) 0 counts) else none }

/-- `batched_hyps_to_hypotheses`: asserts `batch_size <= B` (embedded as
`Except.error`), slices each of the first `num_hyps` items to its current
length, and runs the alignment grouping pass when an alignment buffer is
given. -/
def batched_hyps_to_hypotheses (batched_hyps : BatchedHyps)
    (alignments : Option BatchedAlignments) (batch_size : Option Nat) :
    Except String (List Hypothesis) :=
  let B := batched_hyps.batchSize
  match batch_size with
  | some n =>
    if n ≤ B then
      .ok ((List.range n).map (fun i =>
        match alignments with
        | none => materializeGreedyOne batched_hyps i
        | some al => materializeAlignedOne batched_hyps al i))
    else .error "AssertionError"
  | none =>
    .ok ((List.range B).map (fun i =>
      match alignments with
      | none => materializeGreedyOne batched_hyps i
      | some al => materializeAlignedOne batched_hyps al i))

/-- `tensor.max()` over the `B × K` real entries of a `[B, K]` tensor of
naturals. -/
def natMaxOver2 (nb nk : Nat) (f : Nat → Nat → Nat) : Nat :=
  (List.range nb).foldl (fun m b => max m (natMaxOver nk (f b))) 0

/-- Shallow embedding of the state of `BeamBatchedHyps` (beam-search buffer):
per `(batch, beam)` slot, compacted and full traces, score decomposition, and
the per-batch-item `best_hyps` lists of completed hypotheses. -/
structure BeamBatchedHyps where
  batchSize : Nat
  beamSize : Nat
  maxLength : Nat
  maxTimesteps : Nat → Int
  currentLengths : Nat → Nat → Nat
  transcripts : Nat → Nat → Nat → Int
  timesteps : Nat → Nat → Nat → Int
  timestepsEnd : Nat → Nat → Nat → Int
  scores : Nat → Nat → Rat
  lastTimestep : Nat → Nat → Int
  lastTimestepLasts : Nat → Nat → Int
  labelScores : Nat → Nat → Rat
  blankScores : Nat → Nat → Rat
  totalScores : Nat → Nat → Nat → Rat
  tokenScores : Nat → Nat → Nat → Rat
  fullCurrentLengths : Nat → Nat → Nat
  fullTimesteps : Nat → Nat → Nat → Int
  fullTranscripts : Nat → Nat → Nat → Int
  lastTimestepRepetitions : Nat → Nat → Int
  bestHyps : Nat → List Hypothesis

/-- The source's `blank_tensor = torch.tensor(1024)`, used as the fill value of
`_full_transcripts`. -/
def beamBlankFill : Int := 1024

/-- `BeamBatchedHyps.__init__`: validates the sizes (`ValueError` embedded as
`Except.error`); all buffers zero-initialized except `_full_transcripts`,
filled with the blank value `1024`; `last_timestep` is filled with `0`. -/
def BeamBatchedHyps.init (batch_size beam_size : Nat) (max_timesteps : Nat → Int)
    (init_length : Nat) : Except String BeamBatchedHyps :=
  if init_length ≤ 0 then .error "init_length must be > 0"
  else if batch_size ≤ 0 then .error "batch_size must be > 0"
  else .ok
    { batchSize := batch_size
      beamSize := beam_size
      maxLength := init_length
      maxTimesteps := max_timesteps
      currentLengths := fun _ _ => 0
      transcripts := fun _ _ _ => 0
      timesteps := fun _ _ _ => 0
      timestepsEnd := fun _ _ _ => 0
      scores := fun _ _ => 0
      lastTimestep := fun _ _ => 0
      lastTimestepLasts := fun _ _ => 0
      labelScores := fun _ _ => 0
      blankScores := fun _ _ => 0
      totalScores := fun _ _ _ => 0
      tokenScores := fun _ _ _ => 0
      fullCurrentLengths := fun _ _ => 0
      fullTimesteps := fun _ _ _ => 0
      fullTranscripts := fun _ _ _ => beamBlankFill
      lastTimestepRepetitions := fun _ _ => 0
      bestHyps := fun _ => [] }

/-- `BeamBatchedHyps.clear_`: resets exactly the six buffers the source
clears; notably `_full_current_lengths` and the full traces are left as they
are. -/
def BeamBatchedHyps.clear_ (s : BeamBatchedHyps) : BeamBatchedHyps :=
  { s with
    currentLengths := fun _ _ => 0
    transcripts := fun _ _ _ => 0
    timesteps := fun _ _ _ => 0
    scores := fun _ _ => 0
    lastTimestep := fun _ _ => -1
    lastTimestepLasts := fun _ _ => 0 }

/-- `BeamBatchedHyps._allocate_more`: doubles capacity, padding
`_full_transcripts` with the blank value `1024` and every other grown buffer
with `0`. -/
def BeamBatchedHyps.allocate_more (s : BeamBatchedHyps) : BeamBatchedHyps :=
  { s with
    timesteps := fun b k p => if p < s.maxLength then s.timesteps b k p else 0
    transcripts := fun b k p => if p < s.maxLength then s.transcripts b k p else 0
    timestepsEnd := fun b k p => if p < s.maxLength then s.timestepsEnd b k p else 0
    fullTimesteps := fun b k p => if p < s.maxLength then s.fullTimesteps b k p else 0
    fullTranscripts := fun b k p =>
      if p < s.maxLength then s.fullTranscripts b k p else beamBlankFill
    totalScores := fun b k p => if p < s.maxLength then s.totalScores b k p else 0
    tokenScores := fun b k p => if p < s.maxLength then s.tokenScores b k p else 0
    maxLength := 2 * s.maxLength }

/-- `BeamBatchedHyps._calculate_score`: the additive combination of label and
blank log-probabilities. -/
def BeamBatchedHyps.calculate_score (label_logps blank_logps : Rat) : Rat :=
  label_logps + blank_logps

/-- `BeamBatchedHyps.append_labels`.  In source order: remember the blank
start positions, advance both cursors (`num_blanks + 1` for the full trace),
grow once if the maximal full length exceeds `_max_length - 1`, then write the
label into the compacted transcript at the old cursor, accumulate the
label/blank score sums, add the per-step normalized score
`(label_logps + blank_logps) / full_current_lengths`, propagate
`timesteps_end` (reading index `current_lengths - 2`, which for an empty beam
wraps, as a torch negative index, to the last position of the row), write the
label and its end timestep at the last new full-trace slot, record the step
score in `_total_scores`, write the per-blank scores into `_token_scores`
over the blank run (the masked write is skipped when `num_blanks` is zero
everywhere), write the label log-prob into `_token_scores` at the last new
slot, and update the last-timestep bookkeeping. -/
def BeamBatchedHyps.append_labels (s : BeamBatchedHyps)
    (labels : Nat → Nat → Int) (label_logps blank_logps : Nat → Nat → Rat)
    (blank_logps_per_blank : Nat → Nat → Nat → Rat) (num_blanks : Nat → Nat → Nat) :
    BeamBatchedHyps :=
  let blankStart := s.fullCurrentLengths
  let s0 := { s with
    currentLengths := fun b k => s.currentLengths b k + 1
    fullCurrentLengths := fun b k => s.fullCurrentLengths b k + num_blanks b k + 1 }
  let s1 :=
    if natMaxOver2 s0.batchSize s0.beamSize s0.fullCurrentLengths > s0.maxLength - 1
    then s0.allocate_more else s0
  let score : Nat → Nat → Rat := fun b k =>
    BeamBatchedHyps.calculate_score (label_logps b k) (blank_logps b k)
      / ((s1.fullCurrentLengths b k : Int) : Rat)
  let prevEnd : Nat → Nat → Int := fun b k =>
    s1.timestepsEnd b k
      (if s.currentLengths b k = 0 then s1.maxLength - 1 else s.currentLengths b k - 1)
  let anyBlank : Bool :=
    (List.range s1.batchSize).any (fun b =>
      (List.range s1.beamSize).any (fun k => num_blanks b k != 0))
  { s1 with
    transcripts := fun b k p =>
      if p = s.currentLengths b k then labels b k else s1.transcripts b k p
    labelScores := fun b k => s1.labelScores b k + label_logps b k
    blankScores := fun b k => s1.blankScores b k + blank_logps b k
    scores := fun b k => s1.scores b k + score b k
    timesteps := fun b k p =>
      if p = s.currentLengths b k then prevEnd b k else s1.timesteps b k p
    timestepsEnd := fun b k p =>
      if p = s.currentLengths b k then prevEnd b k + (num_blanks b k : Int)
      else s1.timestepsEnd b k p
    fullTranscripts := fun b k p =>
      if p = blankStart b k + num_blanks b k then labels b k else s1.fullTranscripts b k p
    fullTimesteps := fun b k p =>
      if p = blankStart b k + num_blanks b k then prevEnd b k + (num_blanks b k : Int)
      else s1.fullTimesteps b k p
    totalScores := fun b k p =>
      if p = s.currentLengths b k then score b k else s1.totalScores b k p
    tokenScores := fun b k p =>
      if p = blankStart b k + num_blanks b k then label_logps b k
      else if anyBlank = true ∧ blankStart b k ≤ p ∧ p < blankStart b k + num_blanks b k then
        blank_logps_per_blank b k (p - blankStart b k)
      else s1.tokenScores b k p
    lastTimestep := fun b k => s1.lastTimestep b k + (num_blanks b k : Int)
    lastTimestepRepetitions := fun b k =>
      if num_blanks b k = 0 then s1.lastTimestepRepetitions b k + 1 else 1 }

/-- The gather block at the head of `BeamBatchedHyps.update_beam`: every
gathered per-beam parallel buffer at slot `(b, k)` takes the pre-reorder value
at `(b, beam_idx[b, k])`.  (`last_timestep_lasts` and `best_hyps` are not
gathered by the source.) -/
def BeamBatchedHyps.update_beam_reorder (s : BeamBatchedHyps) (beam_idx : Nat → Nat → Nat) :
    BeamBatchedHyps :=
  { s with
    scores := fun b k => s.scores b (beam_idx b k)
    lastTimestep := fun b k => s.lastTimestep b (beam_idx b k)
    currentLengths := fun b k => s.currentLengths b (beam_idx b k)
    lastTimestepRepetitions := fun b k => s.lastTimestepRepetitions b (beam_idx b k)
    timesteps := fun b k p => s.timesteps b (beam_idx b k) p
    transcripts := fun b k p => s.transcripts b (beam_idx b k) p
    timestepsEnd := fun b k p => s.timestepsEnd b (beam_idx b k) p
    fullTimesteps := fun b k p => s.fullTimesteps b (beam_idx b k) p
    labelScores := fun b k => s.labelScores b (beam_idx b k)
    blankScores := fun b k => s.blankScores b (beam_idx b k)
    totalScores := fun b k p => s.totalScores b (beam_idx b k) p
    tokenScores := fun b k p => s.tokenScores b (beam_idx b k) p
    fullCurrentLengths := fun b k => s.fullCurrentLengths b (beam_idx b k)
    fullTranscripts := fun b k p => s.fullTranscripts b (beam_idx b k) p }

/-- `BeamBatchedHyps.update_beam`: gather-based reorder of all parallel
per-beam buffers by `beam_idx`, followed by `append_labels` with the new
extension. -/
def BeamBatchedHyps.update_beam (s : BeamBatchedHyps)
    (labels : Nat → Nat → Int) (label_logps blank_logps : Nat → Nat → Rat)
    (blank_logps_per_blank : Nat → Nat → Nat → Rat) (num_blanks : Nat → Nat → Nat)
    (beam_idx : Nat → Nat → Nat) : BeamBatchedHyps :=
  (s.update_beam_reorder beam_idx).append_labels labels label_logps blank_logps
    blank_logps_per_blank num_blanks

/-- Python `sorted(..., key=score, reverse=True)` insertion step: a stable
descending insert places `x` before the first element whose score does not
exceed it. -/
def pyInsertDesc (x : Hypothesis) : List Hypothesis → List Hypothesis
  | [] => [x]
  | y :: ys => if y.score ≤ x.score then x :: y :: ys else y :: pyInsertDesc x ys

/-- Python `sorted(..., key=score, reverse=True)`: stable sort by descending
score. -/
def pySortedDesc (l : List Hypothesis) : List Hypothesis :=
  l.foldr pyInsertDesc []

/-- `BeamBatchedHyps.get_best_hyps`: for each batch item, sorts `best_hyps[b]`
by descending score (stable) and takes element `0`; an empty list makes the
subscript fail (python `IndexError`), embedded as `Except.error`. -/
def BeamBatchedHyps.get_best_hyps (s : BeamBatchedHyps) : Except String (List Hypothesis) :=
  (List.range s.batchSize).mapM (fun b =>
    match pySortedDesc (s.bestHyps b) with
    | [] => .error "IndexError: list index out of range"
    | h :: _ => .ok h)

/-! ### Concrete states used by witnesses -/

/-- The state produced by `BatchedHyps.init 1 1`. -/
def gState0 : BatchedHyps :=
  { batchSize := 1
    maxLength := 1
    currentLengths := fun _ => 0
    transcript := fun _ _ => 0
    timesteps := fun _ _ => 0
    scores := fun _ => 0
    lastTimestep := fun _ => -1
    lastTimestepLasts := fun _ => 0 }

/-- The state produced by `BeamBatchedHyps.init 1 1 (fun _ => 100) 1`. -/
def bState0 : BeamBatchedHyps :=
  { batchSize := 1, beamSize := 1, maxLength := 1, maxTimesteps := fun _ => 100
    currentLengths := fun _ _ => 0, transcripts := fun _ _ _ => 0
    timesteps := fun _ _ _ => 0, timestepsEnd := fun _ _ _ => 0
    scores := fun _ _ => 0, lastTimestep := fun _ _ => 0
    lastTimestepLasts := fun _ _ => 0, labelScores := fun _ _ => 0
    blankScores := fun _ _ => 0, totalScores := fun _ _ _ => 0
    tokenScores := fun _ _ _ => 0, fullCurrentLengths := fun _ _ => 0
    fullTimesteps := fun _ _ _ => 0, fullTranscripts := fun _ _ _ => beamBlankFill
    lastTimestepRepetitions := fun _ _ => 0, bestHyps := fun _ => [] }

/-- One `append_labels` call on the empty beam: label `5` with log-prob
`-0.5`, blank log-prob `-0.1`, no blanks. -/
def bApp1 : BeamBatchedHyps :=
  bState0.append_labels (fun _ _ => 5) (fun _ _ => -1/2) (fun _ _ => -1/10)
    (fun _ _ _ => 0) (fun _ _ => 0)

/-- A second `append_labels` call: label `6` with log-prob `-1`, blank
log-prob `0`, no blanks. -/
def bApp2 : BeamBatchedHyps :=
  bApp1.append_labels (fun _ _ => 6) (fun _ _ => -1) (fun _ _ => 0)
    (fun _ _ _ => 0) (fun _ _ => 0)

/-! ### Claim C5 -/

/-- Claim C5: in the mask-based append path
(`add_results_masked_no_checks_`), an item whose mask entry is `0` keeps its
write cursor, score, `last_timestep`, `last_timestep_lasts` and its stored
transcript/timesteps contents (the prefixes up to its cursor, which by the
data model are the item's stored contents) unchanged, while every item with
mask entry `1` advances its cursor by exactly one. -/
theorem masked_no_checks_inactive_item_untouched
    (s : BatchedHyps) (active_mask : Nat → Bool) (labels time_indices : Nat → Int)
    (step_scores : Nat → Rat) (b : Nat) (hb : active_mask b = false) :
    ((s.add_results_masked_no_checks_ active_mask labels time_indices step_scores).currentLengths b
        = s.currentLengths b) ∧
    ((s.add_results_masked_no_checks_ active_mask labels time_indices step_scores).scores b
        = s.scores b) ∧
    ((s.add_results_masked_no_checks_ active_mask labels time_indices step_scores).lastTimestep b
        = s.lastTimestep b) ∧
    ((s.add_results_masked_no_checks_ active_mask labels time_indices
          step_scores).lastTimestepLasts b
        = s.lastTimestepLasts b) ∧
    (∀ p, p < s.currentLengths b →
      (s.add_results_masked_no_checks_ active_mask labels time_indices step_scores).transcript b p
          = s.transcript b p ∧
      (s.add_results_masked_no_checks_ active_mask labels time_indices step_scores).timesteps b p
          = s.timesteps b p) ∧
    (∀ b', active_mask b' = true →
      (s.add_results_masked_no_checks_ active_mask labels time_indices
          step_scores).currentLengths b' = s.currentLengths b' + 1) := by
  refine ⟨?_, ?_, ?_, ?_, ?_, ?_⟩
  · simp [BatchedHyps.add_results_masked_no_checks_, hb]
  · simp [BatchedHyps.add_results_masked_no_checks_, hb]
  · simp [BatchedHyps.add_results_masked_no_checks_, hb]
  · simp [BatchedHyps.add_results_masked_no_checks_, hb]
  · intro p hp
    have hne : p ≠ s.currentLengths b := Nat.ne_of_lt hp
    constructor <;> simp [BatchedHyps.add_results_masked_no_checks_, hne]
  · intro b' hb'
    simp [BatchedHyps.add_results_masked_no_checks_, hb']

/-- Witness for C5 at a concrete input: batch size 1, mask `b = 1` (so item 0
is inactive). -/
theorem masked_no_checks_inactive_item_untouched_witness :
    ((fun b => b == 1) : Nat → Bool) 0 = false ∧
    ((gState0.add_results_masked_no_checks_ (fun b => b == 1) (fun _ => 3) (fun _ => 0)
        (fun _ => -1)).currentLengths 0 = gState0.currentLengths 0) ∧
    ((gState0.add_results_masked_no_checks_ (fun b => b == 1) (fun _ => 3) (fun _ => 0)
        (fun _ => -1)).scores 0 = gState0.scores 0) ∧
    ((gState0.add_results_masked_no_checks_ (fun b => b == 1) (fun _ => 3) (fun _ => 0)
        (fun _ => -1)).lastTimestep 0 = gState0.lastTimestep 0) ∧
    ((gState0.add_results_masked_no_checks_ (fun b => b == 1) (fun _ => 3) (fun _ => 0)
        (fun _ => -1)).lastTimestepLasts 0 = gState0.lastTimestepLasts 0) ∧
    (∀ p, p < gState0.currentLengths 0 →
      (gState0.add_results_masked_no_checks_ (fun b => b == 1) (fun _ => 3) (fun _ => 0)
          (fun _ => -1)).transcript 0 p = gState0.transcript 0 p ∧
      (gState0.add_results_masked_no_checks_ (fun b => b == 1) (fun _ => 3) (fun _ => 0)
          (fun _ => -1)).timesteps 0 p = gState0.timesteps 0 p) ∧
    (∀ b', (fun b => b == 1 : Nat → Bool) b' = true →
      (gState0.add_results_masked_no_checks_ (fun b => b == 1) (fun _ => 3) (fun _ => 0)
          (fun _ => -1)).currentLengths b' = gState0.currentLengths b' + 1) :=
  ⟨rfl, masked_no_checks_inactive_item_untouched gState0 (fun b => b == 1) (fun _ => 3)
    (fun _ => 0) (fun _ => -1) 0 rfl⟩

/-! ### Claim C2 -/

/-- Claim C2 is false as stated: `BeamBatchedHyps.init 1 1 _ 1`, then
`append_labels` with `label_logps=-0.5, blank_logps=-0.1, num_blanks=0`, then
`append_labels` with `label_logps=-1, blank_logps=0, num_blanks=0`.  After the
second call the beam's score is `-11/10` (the per-step increments
`-0.6 + (-1)/2`), while the cumulative sums divided by `full_current_length`
give `(-3/2 + -1/10)/2 = -4/5`; the two disagree, so the score is not
recomputed from the cumulative sums. -/
theorem append_labels_score_not_cumulative_counterexample :
    bApp2.scores 0 0 = -11/10 ∧
    (bApp2.labelScores 0 0 + bApp2.blankScores 0 0)
        / ((bApp2.fullCurrentLengths 0 0 : Int) : Rat) = -4/5 ∧
    ¬ (bApp2.scores 0 0
        = (bApp2.labelScores 0 0 + bApp2.blankScores 0 0)
            / ((bApp2.fullCurrentLengths 0 0 : Int) : Rat)) := by
  norm_num [bApp2, bApp1, bState0, BeamBatchedHyps.append_labels, natMaxOver2, natMaxOver,
    BeamBatchedHyps.allocate_more, BeamBatchedHyps.calculate_score,
    List.range_succ, List.range_zero]

/-- Claim C2, amended: every `append_labels` call increments each beam's score
by the per-step quantity `(label_logps + blank_logps) / full_current_length`
(denominator taken after the full cursor advanced by `num_blanks + 1`); the
score is not recomputed from the cumulative label/blank sums, which are
accumulated separately in `_label_scores`/`_blank_scores`.  In particular one
`append_labels` call on an empty beam with `label_logps=-0.5, blank_logps=-0.1,
num_blanks=0` still yields score `(-0.5 + -0.1)/1 = -0.6`. -/
theorem append_labels_score_per_step_increment
    (s : BeamBatchedHyps) (labels : Nat → Nat → Int)
    (label_logps blank_logps : Nat → Nat → Rat)
    (blank_logps_per_blank : Nat → Nat → Nat → Rat) (num_blanks : Nat → Nat → Nat)
    (b k : Nat) :
    ((s.append_labels labels label_logps blank_logps blank_logps_per_blank
        num_blanks).scores b k
      = s.scores b k + (label_logps b k + blank_logps b k)
          / (((s.fullCurrentLengths b k + num_blanks b k + 1 : Nat) : Int) : Rat)) ∧
    ((s.append_labels labels label_logps blank_logps blank_logps_per_blank
        num_blanks).labelScores b k = s.labelScores b k + label_logps b k) ∧
    ((s.append_labels labels label_logps blank_logps blank_logps_per_blank
        num_blanks).blankScores b k = s.blankScores b k + blank_logps b k) ∧
    bApp1.scores 0 0 = -3/5 := by
  refine ⟨?_, ?_, ?_, ?_⟩
  · simp only [BeamBatchedHyps.append_labels, BeamBatchedHyps.calculate_score]
    split <;> simp [BeamBatchedHyps.allocate_more]
  · simp only [BeamBatchedHyps.append_labels, BeamBatchedHyps.calculate_score]
    split <;> simp [BeamBatchedHyps.allocate_more]
  · simp only [BeamBatchedHyps.append_labels, BeamBatchedHyps.calculate_score]
    split <;> simp [BeamBatchedHyps.allocate_more]
  · norm_num [bApp1, bState0, BeamBatchedHyps.append_labels, natMaxOver2, natMaxOver,
      BeamBatchedHyps.allocate_more, BeamBatchedHyps.calculate_score,
      List.range_succ, List.range_zero]

/-! ### Claim C10 -/

/-- The invariant of Claim C10: the full trace cursor dominates the compacted
cursor at every `(batch, beam)` slot. -/
def BeamLengthInv (s : BeamBatchedHyps) : Prop :=
  ∀ b k, s.currentLengths b k ≤ s.fullCurrentLengths b k

/-- Claim C10: `full_current_length[b,k] ≥ current_length[b,k]` holds at
construction and is preserved by `append_labels` (blank counts are naturals,
so `num_blanks ≥ 0`), by `update_beam`'s gather-based reorder-and-append, and
by `clear_`. -/
theorem beam_full_length_ge_current_length
    (B K L : Nat) (mt : Nat → Int) (s0 s : BeamBatchedHyps)
    (h0 : BeamBatchedHyps.init B K mt L = .ok s0) (h : BeamLengthInv s)
    (labels : Nat → Nat → Int) (label_logps blank_logps : Nat → Nat → Rat)
    (blank_logps_per_blank : Nat → Nat → Nat → Rat) (num_blanks : Nat → Nat → Nat)
    (beam_idx : Nat → Nat → Nat) :
    BeamLengthInv s0 ∧
    BeamLengthInv (s.append_labels labels label_logps blank_logps blank_logps_per_blank
      num_blanks) ∧
    BeamLengthInv (s.update_beam labels label_logps blank_logps blank_logps_per_blank
      num_blanks beam_idx) ∧
    BeamLengthInv s.clear_ := by
  have happend : ∀ t : BeamBatchedHyps, BeamLengthInv t →
      BeamLengthInv (t.append_labels labels label_logps blank_logps blank_logps_per_blank
        num_blanks) := by
    intro t ht b k
    have htk := ht b k
    simp only [BeamBatchedHyps.append_labels, BeamBatchedHyps.calculate_score]
    split <;> simp [BeamBatchedHyps.allocate_more] <;> omega
  refine ⟨?_, happend s h, ?_, ?_⟩
  · simp only [BeamBatchedHyps.init] at h0
    split at h0
    · exact absurd h0 (by simp)
    · split at h0
      · exact absurd h0 (by simp)
      · cases h0
        intro b k
        exact Nat.le_refl 0
  · exact happend (s.update_beam_reorder beam_idx)
      (fun b k => h b (beam_idx b k))
  · intro b k
    exact Nat.zero_le _

/-- Witness for C10 at a concrete input: `init 1 1 _ 1` and the empty beam
state `bState0`, which satisfies the invariant. -/
theorem beam_full_length_ge_current_length_witness :
    BeamBatchedHyps.init 1 1 (fun _ => 100) 1 = .ok bState0 ∧
    BeamLengthInv bState0 ∧
    (BeamLengthInv bState0 ∧
      BeamLengthInv (bState0.append_labels (fun _ _ => 5) (fun _ _ => -1/2) (fun _ _ => -1/10)
        (fun _ _ _ => 0) (fun _ _ => 1)) ∧
      BeamLengthInv (bState0.update_beam (fun _ _ => 5) (fun _ _ => -1/2) (fun _ _ => -1/10)
        (fun _ _ _ => 0) (fun _ _ => 1) (fun _ _ => 0)) ∧
      BeamLengthInv bState0.clear_) :=
  ⟨rfl, fun _ _ => Nat.le_refl 0,
    beam_full_length_ge_current_length 1 1 1 (fun _ => 100) bState0 bState0 rfl
      (fun _ _ => Nat.le_refl 0) (fun _ _ => 5) (fun _ _ => -1/2) (fun _ _ => -1/10)
      (fun _ _ _ => 0) (fun _ _ => 1) (fun _ _ => 0)⟩

/-! ### Claim C7 -/

/-- Claim C7: the gather block of `update_beam` reorders every per-beam
parallel array identically before the append: each post-reorder value at
`(b, k)` equals the pre-reorder value at `(b, beam_idx[b,k])`, and
`update_beam` is exactly this reorder followed by `append_labels`. -/
theorem update_beam_reorder_gathers_all_arrays
    (s : BeamBatchedHyps) (beam_idx : Nat → Nat → Nat) (b k p : Nat)
    (labels : Nat → Nat → Int) (label_logps blank_logps : Nat → Nat → Rat)
    (blank_logps_per_blank : Nat → Nat → Nat → Rat) (num_blanks : Nat → Nat → Nat) :
    ((s.update_beam_reorder beam_idx).scores b k = s.scores b (beam_idx b k)) ∧
    ((s.update_beam_reorder beam_idx).currentLengths b k
        = s.currentLengths b (beam_idx b k)) ∧
    ((s.update_beam_reorder beam_idx).lastTimestep b k
        = s.lastTimestep b (beam_idx b k)) ∧
    ((s.update_beam_reorder beam_idx).lastTimestepRepetitions b k
        = s.lastTimestepRepetitions b (beam_idx b k)) ∧
    ((s.update_beam_reorder beam_idx).transcripts b k p
        = s.transcripts b (beam_idx b k) p) ∧
    ((s.update_beam_reorder beam_idx).timesteps b k p
        = s.timesteps b (beam_idx b k) p) ∧
    ((s.update_beam_reorder beam_idx).timestepsEnd b k p
        = s.timestepsEnd b (beam_idx b k) p) ∧
    ((s.update_beam_reorder beam_idx).fullTranscripts b k p
        = s.fullTranscripts b (beam_idx b k) p) ∧
    ((s.update_beam_reorder beam_idx).fullTimesteps b k p
        = s.fullTimesteps b (beam_idx b k) p) ∧
    ((s.update_beam_reorder beam_idx).fullCurrentLengths b k
        = s.fullCurrentLengths b (beam_idx b k)) ∧
    ((s.update_beam_reorder beam_idx).labelScores b k = s.labelScores b (beam_idx b k)) ∧
    ((s.update_beam_reorder beam_idx).blankScores b k = s.blankScores b (beam_idx b k)) ∧
    ((s.update_beam_reorder beam_idx).totalScores b k p
        = s.totalScores b (beam_idx b k) p) ∧
    ((s.update_beam_reorder beam_idx).tokenScores b k p
        = s.tokenScores b (beam_idx b k) p) ∧
    (s.update_beam labels label_logps blank_logps blank_logps_per_blank num_blanks beam_idx
        = (s.update_beam_reorder beam_idx).append_labels labels label_logps blank_logps
            blank_logps_per_blank num_blanks) :=
  ⟨rfl, rfl, rfl, rfl, rfl, rfl, rfl, rfl, rfl, rfl, rfl, rfl, rfl, rfl, rfl⟩

/-! ### Claim C6 -/

/-- `bState0` with capacity `4` (as after `init 1 1 _ 4`). -/
def cState : BeamBatchedHyps :=
  { bState0 with maxLength := 4 }

/-- One `append_labels` call with one blank: label `7`, `label_logps=-1/2`,
`blank_logps=-1/5`, per-blank score `-1/4`, `num_blanks=1`. -/
def cApp : BeamBatchedHyps :=
  cState.append_labels (fun _ _ => 7) (fun _ _ => -1/2) (fun _ _ => -1/5)
    (fun _ _ _ => -1/4) (fun _ _ => 1)

/-- Claim C6 is false as stated: after an `append_labels` call with
`num_blanks = 1` on an empty beam, the full trace holds the label at its last
new position (index 1) but the preceding blank placeholder (index 0) holds the
blank fill value `1024`, not zero. -/
theorem append_labels_blank_placeholder_not_zero_counterexample :
    cApp.fullCurrentLengths 0 0 = 2 ∧
    cApp.fullTranscripts 0 0 1 = 7 ∧
    cApp.fullTranscripts 0 0 0 = 1024 ∧
    ¬ (cApp.fullTranscripts 0 0 0 = 0) := by
  norm_num [cApp, cState, bState0, BeamBatchedHyps.append_labels, natMaxOver2, natMaxOver,
    BeamBatchedHyps.allocate_more, BeamBatchedHyps.calculate_score, beamBlankFill,
    List.range_succ, List.range_zero]

/-- Claim C6, amended: `append_labels` writes, per in-range `(b,k)`, exactly
one entry into the compacted `transcripts`/`timesteps` (at the old cursor);
the label itself into the last of the `num_blanks[b,k]+1` new full-trace
positions; the preceding `num_blanks[b,k]` full-trace positions are left
holding the blank placeholder `1024` in `_full_transcripts` and `0` in
`_full_timesteps` (their untouched fill values, assumed present beyond the old
full cursor); each per-blank score into `_token_scores` at the blank
positions; and the label's log-probability into `_token_scores` at the last
new position. -/
theorem append_labels_write_effects
    (s : BeamBatchedHyps) (labels : Nat → Nat → Int)
    (label_logps blank_logps : Nat → Nat → Rat)
    (blank_logps_per_blank : Nat → Nat → Nat → Rat) (num_blanks : Nat → Nat → Nat)
    (b k : Nat) (hb : b < s.batchSize) (hk : k < s.beamSize)
    (hT : ∀ p, s.fullCurrentLengths b k ≤ p → s.fullTranscripts b k p = beamBlankFill)
    (hS : ∀ p, s.fullCurrentLengths b k ≤ p → s.fullTimesteps b k p = 0)
    (r : BeamBatchedHyps)
    (hr : r = s.append_labels labels label_logps blank_logps blank_logps_per_blank
      num_blanks) :
    (r.currentLengths b k = s.currentLengths b k + 1) ∧
    (r.fullCurrentLengths b k = s.fullCurrentLengths b k + num_blanks b k + 1) ∧
    (r.transcripts b k (s.currentLengths b k) = labels b k) ∧
    (∀ p, p < s.maxLength → p ≠ s.currentLengths b k →
      r.transcripts b k p = s.transcripts b k p) ∧
    (∀ p, p < s.maxLength → p ≠ s.currentLengths b k →
      r.timesteps b k p = s.timesteps b k p) ∧
    (r.fullTranscripts b k (s.fullCurrentLengths b k + num_blanks b k) = labels b k) ∧
    (∀ j, j < num_blanks b k →
      r.fullTranscripts b k (s.fullCurrentLengths b k + j) = beamBlankFill) ∧
    (∀ j, j < num_blanks b k →
      r.fullTimesteps b k (s.fullCurrentLengths b k + j) = 0) ∧
    (∀ j, j < num_blanks b k →
      r.tokenScores b k (s.fullCurrentLengths b k + j) = blank_logps_per_blank b k j) ∧
    (r.tokenScores b k (s.fullCurrentLengths b k + num_blanks b k) = label_logps b k) := by
  subst hr
  have hany : ∀ j, j < num_blanks b k →
      ((List.range s.batchSize).any fun b' =>
        (List.range s.beamSize).any fun k' => num_blanks b' k' != 0) = true := by
    intro j hj
    simp only [List.any_eq_true, List.mem_range, bne_iff_ne, ne_eq]
    exact ⟨b, hb, k, hk, by omega⟩
  simp only [BeamBatchedHyps.append_labels, BeamBatchedHyps.calculate_score]
  split
  all_goals refine ⟨by first | rfl | simp [BeamBatchedHyps.allocate_more],
    by first | rfl | simp [BeamBatchedHyps.allocate_more],
    by first | rfl | simp [BeamBatchedHyps.allocate_more], ?_, ?_,
    by first | rfl | simp [BeamBatchedHyps.allocate_more], ?_, ?_, ?_,
    by first | rfl | simp [BeamBatchedHyps.allocate_more]⟩
  · intro p hp hne
    simp [BeamBatchedHyps.allocate_more, hne, hp]
  · intro p hp hne
    simp [BeamBatchedHyps.allocate_more, hne, hp]
  · intro j hj
    have hne : s.fullCurrentLengths b k + j ≠ s.fullCurrentLengths b k + num_blanks b k := by
      omega
    have hTj := hT (s.fullCurrentLengths b k + j) (Nat.le_add_right _ _)
    by_cases hcap : s.fullCurrentLengths b k + j < s.maxLength
    · simp [BeamBatchedHyps.allocate_more, hne, hcap, hTj]
    · simp [BeamBatchedHyps.allocate_more, hne, hcap]
  · intro j hj
    have hne : s.fullCurrentLengths b k + j ≠ s.fullCurrentLengths b k + num_blanks b k := by
      omega
    have hSj := hS (s.fullCurrentLengths b k + j) (Nat.le_add_right _ _)
    by_cases hcap : s.fullCurrentLengths b k + j < s.maxLength
    · simp [BeamBatchedHyps.allocate_more, hne, hcap, hSj]
    · simp [BeamBatchedHyps.allocate_more, hne, hcap]
  · intro j hj
    have hne : s.fullCurrentLengths b k + j ≠ s.fullCurrentLengths b k + num_blanks b k := by
      omega
    have hlt : s.fullCurrentLengths b k + j < s.fullCurrentLengths b k + num_blanks b k := by
      omega
    simp [BeamBatchedHyps.allocate_more, hne, hany j hj, Nat.le_add_right, hlt,
      Nat.add_sub_cancel_left]
  · intro p hp hne
    simp [hne]
  · intro p hp hne
    simp [hne]
  · intro j hj
    have hne : s.fullCurrentLengths b k + j ≠ s.fullCurrentLengths b k + num_blanks b k := by
      omega
    have hTj := hT (s.fullCurrentLengths b k + j) (Nat.le_add_right _ _)
    simp [hne, hTj]
  · intro j hj
    have hne : s.fullCurrentLengths b k + j ≠ s.fullCurrentLengths b k + num_blanks b k := by
      omega
    have hSj := hS (s.fullCurrentLengths b k + j) (Nat.le_add_right _ _)
    simp [hne, hSj]
  · intro j hj
    have hne : s.fullCurrentLengths b k + j ≠ s.fullCurrentLengths b k + num_blanks b k := by
      omega
    have hlt : s.fullCurrentLengths b k + j < s.fullCurrentLengths b k + num_blanks b k := by
      omega
    simp [hne, hany j hj, Nat.le_add_right, hlt, Nat.add_sub_cancel_left]

/-- Witness for the amended C6 at a concrete input: the one-blank append
`cApp` on the empty beam `cState`. -/
theorem append_labels_write_effects_witness :
    (0 < cState.batchSize) ∧ (0 < cState.beamSize) ∧
    (∀ p, cState.fullCurrentLengths 0 0 ≤ p → cState.fullTranscripts 0 0 p = beamBlankFill) ∧
    (∀ p, cState.fullCurrentLengths 0 0 ≤ p → cState.fullTimesteps 0 0 p = 0) ∧
    ((cApp.currentLengths 0 0 = cState.currentLengths 0 0 + 1) ∧
      (cApp.fullCurrentLengths 0 0
          = cState.fullCurrentLengths 0 0 + (fun _ _ : Nat => 1) 0 0 + 1) ∧
      (cApp.transcripts 0 0 (cState.currentLengths 0 0) = (fun _ _ : Nat => (7 : Int)) 0 0) ∧
      (∀ p, p < cState.maxLength → p ≠ cState.currentLengths 0 0 →
        cApp.transcripts 0 0 p = cState.transcripts 0 0 p) ∧
      (∀ p, p < cState.maxLength → p ≠ cState.currentLengths 0 0 →
        cApp.timesteps 0 0 p = cState.timesteps 0 0 p) ∧
      (cApp.fullTranscripts 0 0 (cState.fullCurrentLengths 0 0 + (fun _ _ : Nat => 1) 0 0)
          = (fun _ _ : Nat => (7 : Int)) 0 0) ∧
      (∀ j, j < (fun _ _ : Nat => 1) 0 0 →
        cApp.fullTranscripts 0 0 (cState.fullCurrentLengths 0 0 + j) = beamBlankFill) ∧
      (∀ j, j < (fun _ _ : Nat => 1) 0 0 →
        cApp.fullTimesteps 0 0 (cState.fullCurrentLengths 0 0 + j) = 0) ∧
      (∀ j, j < (fun _ _ : Nat => 1) 0 0 →
        cApp.tokenScores 0 0 (cState.fullCurrentLengths 0 0 + j)
          = (fun _ _ _ : Nat => (-1/4 : Rat)) 0 0 j) ∧
      (cApp.tokenScores 0 0 (cState.fullCurrentLengths 0 0 + (fun _ _ : Nat => 1) 0 0)
          = (fun _ _ : Nat => (-1/2 : Rat)) 0 0)) :=
  ⟨Nat.zero_lt_one, Nat.zero_lt_one, fun _ _ => rfl, fun _ _ => rfl,
    append_labels_write_effects cState (fun _ _ => 7) (fun _ _ => -1/2) (fun _ _ => -1/5)
      (fun _ _ _ => -1/4) (fun _ _ => 1) 0 0 Nat.zero_lt_one Nat.zero_lt_one
      (fun _ _ => rfl) (fun _ _ => rfl) cApp rfl⟩

/-! ### Claim C3 -/

/-- Greedy run: append label `3` at frame `0` to item 0 (capacity grows from
1 as needed). -/
def gRun1 : BatchedHyps := gState0.add_results_ [0] (fun _ => 3) (fun _ => 0) (fun _ => 0)

/-- Greedy run: then append label `5` at frame `2`. -/
def gRun2 : BatchedHyps := gRun1.add_results_ [0] (fun _ => 5) (fun _ => 2) (fun _ => 0)

/-- Greedy run: then append label `7` at frame `2`. -/
def gRun3 : BatchedHyps := gRun2.add_results_ [0] (fun _ => 7) (fun _ => 2) (fun _ => 0)

/-- Claim C3 is false as stated: materializing after appending `[3,5,7]` at
frames `[0,2,2]` yields label sequence `[3,5,7]` and timesteps `[0,2,2]`, but
the `length` field of the produced `Hypothesis` is `0` (its dataclass
default, never set by `batched_hyps_to_hypotheses`), not `3`. -/
theorem materializer_length_field_counterexample :
    batched_hyps_to_hypotheses gRun3 none none = .ok [materializeGreedyOne gRun3 0] ∧
    (materializeGreedyOne gRun3 0).ySequence = [3, 5, 7] ∧
    (materializeGreedyOne gRun3 0).timestep = [0, 2, 2] ∧
    (materializeGreedyOne gRun3 0).ySequence.length = 3 ∧
    ¬ ((materializeGreedyOne gRun3 0).length = 3) := by
  refine ⟨rfl, by decide, by decide, by decide, by decide⟩

/-- Claim C3, amended: every `Hypothesis` produced by
`batched_hyps_to_hypotheses` satisfies
`len(label_sequence) == len(timesteps)` (both equal the item's current
length), but its `length` field is left at the dataclass default `0` rather
than the sequence length; for the `[3,5,7]`/`[0,2,2]` example the label
sequence and timesteps come out as stated with three entries and
`length = 0`. -/
theorem materializer_sequences_consistent_length_field_zero
    (s : BatchedHyps) (alignments : Option BatchedAlignments) (batch_size : Option Nat)
    (res : List Hypothesis)
    (hres : batched_hyps_to_hypotheses s alignments batch_size = .ok res) :
    (∀ h ∈ res, h.ySequence.length = h.timestep.length ∧ h.length = 0) ∧
    (materializeGreedyOne gRun3 0).ySequence = [3, 5, 7] ∧
    (materializeGreedyOne gRun3 0).timestep = [0, 2, 2] := by
  refine ⟨?_, by decide, by decide⟩
  intro h hh
  rcases alignments with _ | al
  · rcases batch_size with _ | n
    · simp only [batched_hyps_to_hypotheses, Except.ok.injEq] at hres
      subst hres
      obtain ⟨i, _, rfl⟩ := List.mem_map.mp hh
      simp [materializeGreedyOne]
    · simp only [batched_hyps_to_hypotheses] at hres
      split at hres
      · simp only [Except.ok.injEq] at hres
        subst hres
        obtain ⟨i, _, rfl⟩ := List.mem_map.mp hh
        simp [materializeGreedyOne]
      · exact Except.noConfusion hres
  · rcases batch_size with _ | n
    · simp only [batched_hyps_to_hypotheses, Except.ok.injEq] at hres
      subst hres
      obtain ⟨i, _, rfl⟩ := List.mem_map.mp hh
      simp [materializeAlignedOne, materializeGreedyOne]
    · simp only [batched_hyps_to_hypotheses] at hres
      split at hres
      · simp only [Except.ok.injEq] at hres
        subst hres
        obtain ⟨i, _, rfl⟩ := List.mem_map.mp hh
        simp [materializeAlignedOne, materializeGreedyOne]
      · exact Except.noConfusion hres

/-- Witness for the amended C3 at a concrete input: the `[3,5,7]` run. -/
theorem materializer_sequences_consistent_length_field_zero_witness :
    batched_hyps_to_hypotheses gRun3 none none = .ok [materializeGreedyOne gRun3 0] ∧
    ((∀ h ∈ [materializeGreedyOne gRun3 0],
        h.ySequence.length = h.timestep.length ∧ h.length = 0) ∧
      (materializeGreedyOne gRun3 0).ySequence = [3, 5, 7] ∧
      (materializeGreedyOne gRun3 0).timestep = [0, 2, 2]) :=
  ⟨rfl, materializer_sequences_consistent_length_field_zero gRun3 none none
    [materializeGreedyOne gRun3 0] rfl⟩

/-! ### Claim C4 -/

/-- The earliest highest-scoring element of a list (the element python's
stable `sorted(..., reverse=True)` places first). -/
def firstMaxHyp : List Hypothesis → Option Hypothesis
  | [] => none
  | h :: t =>
    match firstMaxHyp t with
    | none => some h
    | some m => if h.score < m.score then some m else some h

/-- `firstMaxHyp` returns `none` exactly on the empty list. -/
theorem firstMaxHyp_eq_none (l : List Hypothesis) : firstMaxHyp l = none ↔ l = [] := by
  cases l with
  | nil => simp [firstMaxHyp]
  | cons a t =>
    cases h : firstMaxHyp t with
    | none => simp [firstMaxHyp, h]
    | some m =>
      simp only [firstMaxHyp, h]
      split <;> simp

/-- Head of a stable descending insert. -/
theorem head?_pyInsertDesc (x : Hypothesis) (s : List Hypothesis) :
    (pyInsertDesc x s).head? = some (match s.head? with
      | none => x
      | some y => if y.score ≤ x.score then x else y) := by
  cases s with
  | nil => rfl
  | cons y ys =>
    simp only [pyInsertDesc]
    split <;> rename_i h <;> simp [h, List.head?]

/-- The head of python's stable descending sort is the earliest maximal
element. -/
theorem head?_pySortedDesc (l : List Hypothesis) :
    (pySortedDesc l).head? = firstMaxHyp l := by
  induction l with
  | nil => rfl
  | cons a t ih =>
    show (pyInsertDesc a (pySortedDesc t)).head? = _
    rw [head?_pyInsertDesc, ih]
    cases h : firstMaxHyp t with
    | none => simp [firstMaxHyp, h]
    | some m =>
      simp only [firstMaxHyp, h]
      rcases le_or_lt m.score a.score with hle | hlt
      · simp [hle, not_lt.mpr hle]
      · simp [not_le.mpr hlt, hlt]

/-- The earliest maximal element is a member and dominates all scores. -/
theorem firstMaxHyp_spec (l : List Hypothesis) (m : Hypothesis)
    (hm : firstMaxHyp l = some m) : m ∈ l ∧ ∀ y ∈ l, y.score ≤ m.score := by
  induction l generalizing m with
  | nil => exact Option.noConfusion hm
  | cons a t ih =>
    cases h : firstMaxHyp t with
    | none =>
      simp only [firstMaxHyp, h, Option.some.injEq] at hm
      subst hm
      have ht : t = [] := (firstMaxHyp_eq_none t).mp h
      subst ht
      exact ⟨List.mem_singleton_self _, by simp⟩
    | some m' =>
      simp only [firstMaxHyp, h] at hm
      obtain ⟨hmem, hbound⟩ := ih m' h
      by_cases hlt : a.score < m'.score
      · rw [if_pos hlt, Option.some.injEq] at hm
        subst hm
        refine ⟨List.mem_cons_of_mem a hmem, ?_⟩
        intro y hy
        rcases List.mem_cons.mp hy with rfl | hyt
        · exact le_of_lt hlt
        · exact hbound y hyt
      · rw [if_neg hlt, Option.some.injEq] at hm
        subst hm
        refine ⟨List.mem_cons_self _ _, ?_⟩
        intro y hy
        rcases List.mem_cons.mp hy with rfl | hyt
        · exact le_refl _
        · exact le_trans (hbound y hyt) (not_lt.mp hlt)

/-- `mapM` over `Except` succeeds pointwise when every element succeeds. -/
theorem mapM_ok_of_all_ok (f : Nat → Except String Hypothesis) (g : Nat → Hypothesis)
    (l : List Nat) (hfg : ∀ b ∈ l, f b = .ok (g b)) :
    l.mapM f = .ok (l.map g) := by
  induction l with
  | nil => rfl
  | cons a t ih =>
    rw [List.mapM_cons, hfg a (List.mem_cons_self a t)]
    rw [ih (fun b hb => hfg b (List.mem_cons_of_mem a hb))]
    rfl

/-- `mapM` over `Except` fails when some element fails. -/
theorem mapM_error_of_exists_error (f : Nat → Except String Hypothesis)
    (l : List Nat) (hex : ∃ b ∈ l, ∀ h, f b ≠ .ok h) :
    ∃ e, l.mapM f = .error e := by
  induction l with
  | nil => simp at hex
  | cons a t ih =>
    obtain ⟨b, hb, hberr⟩ := hex
    cases hfa : f a with
    | error e =>
      refine ⟨e, ?_⟩
      rw [List.mapM_cons, hfa]
      rfl
    | ok h =>
      rcases List.mem_cons.mp hb with rfl | hbt
      · exact absurd hfa (hberr h)
      · obtain ⟨e, he⟩ := ih ⟨b, hbt, hberr⟩
        refine ⟨e, ?_⟩
        rw [List.mapM_cons, hfa, he]
        rfl

/-- Claim C4: when every batch item has a non-empty `completed` list,
`get_best_hyps` returns, per item `b`, the single highest-scoring entry of
`completed[b]` with ties broken by stable sort order (the earliest maximal
entry); when some item's `completed` list is empty at the time of the call,
the call fails (python `IndexError` from `sorted_hyps[0]`, the failure the
specification names `EmptyBeamError`). -/
theorem get_best_hyps_first_max
    (s : BeamBatchedHyps)
    (hne : ∀ b, b < s.batchSize → s.bestHyps b ≠ []) :
    (∃ res, s.get_best_hyps = .ok res ∧ res.length = s.batchSize ∧
      (∀ b, b < s.batchSize → ∃ h, res[b]? = some h ∧
        firstMaxHyp (s.bestHyps b) = some h ∧ h ∈ s.bestHyps b ∧
        ∀ h' ∈ s.bestHyps b, h'.score ≤ h.score)) ∧
    (∀ t : BeamBatchedHyps, ∀ b, b < t.batchSize → t.bestHyps b = [] →
      ∃ e, t.get_best_hyps = .error e) := by
  constructor
  · have hsome : ∀ b, b < s.batchSize → ∃ m, firstMaxHyp (s.bestHyps b) = some m := by
      intro b hb
      cases hm : firstMaxHyp (s.bestHyps b) with
      | none => exact absurd ((firstMaxHyp_eq_none _).mp hm) (hne b hb)
      | some m => exact ⟨m, rfl⟩
    have hfg : ∀ b ∈ List.range s.batchSize,
        (match pySortedDesc (s.bestHyps b) with
          | [] => (Except.error "IndexError: list index out of range" : Except String Hypothesis)
          | h :: _ => .ok h)
        = .ok ((firstMaxHyp (s.bestHyps b)).getD { score := 0, ySequence := [] }) := by
      intro b hb
      obtain ⟨m, hm⟩ := hsome b (List.mem_range.mp hb)
      have hhead : (pySortedDesc (s.bestHyps b)).head? = some m := by
        rw [head?_pySortedDesc, hm]
      cases hs : pySortedDesc (s.bestHyps b) with
      | nil => rw [hs] at hhead; exact Option.noConfusion hhead
      | cons h0 rest =>
        rw [hs] at hhead
        simp only [List.head?, Option.some.injEq] at hhead
        subst hhead
        simp [hm]
    refine ⟨(List.range s.batchSize).map
      (fun b => (firstMaxHyp (s.bestHyps b)).getD { score := 0, ySequence := [] }), ?_, by simp, ?_⟩
    · exact mapM_ok_of_all_ok _ _ _ hfg
    · intro b hb
      obtain ⟨m, hm⟩ := hsome b hb
      obtain ⟨hmem, hbound⟩ := firstMaxHyp_spec _ _ hm
      refine ⟨m, ?_, hm, hmem, hbound⟩
      rw [List.getElem?_map, List.getElem?_range hb]
      simp [hm]
  · intro t b hb hempty
    apply mapM_error_of_exists_error
    refine ⟨b, List.mem_range.mpr hb, ?_⟩
    intro h
    simp [hempty, pySortedDesc]

/-- Completed hypothesis with score `-2`. -/
def wHypA : Hypothesis := { score := -2, ySequence := [] }

/-- Completed hypothesis with score `-1`. -/
def wHypB : Hypothesis := { score := -1, ySequence := [] }

/-- Beam state whose only batch item has `completed = [score -2, score -1]`. -/
def wBeamState : BeamBatchedHyps := { bState0 with bestHyps := fun _ => [wHypA, wHypB] }

/-- Witness for C4 at a concrete input: `completed = [score -2, score -1]`
selects the score `-1` hypothesis. -/
theorem get_best_hyps_first_max_witness :
    (∀ b, b < wBeamState.batchSize → wBeamState.bestHyps b ≠ []) ∧
    firstMaxHyp (wBeamState.bestHyps 0) = some wHypB ∧
    ((∃ res, wBeamState.get_best_hyps = .ok res ∧ res.length = wBeamState.batchSize ∧
      (∀ b, b < wBeamState.batchSize → ∃ h, res[b]? = some h ∧
        firstMaxHyp (wBeamState.bestHyps b) = some h ∧ h ∈ wBeamState.bestHyps b ∧
        ∀ h' ∈ wBeamState.bestHyps b, h'.score ≤ h.score)) ∧
    (∀ t : BeamBatchedHyps, ∀ b, b < t.batchSize → t.bestHyps b = [] →
      ∃ e, t.get_best_hyps = .error e)) :=
  ⟨fun _ _ => List.cons_ne_nil _ _, by decide,
    get_best_hyps_first_max wBeamState (fun _ _ => List.cons_ne_nil _ _)⟩

/-! ### Claim C9 -/

/-- The run lengths collected by the helper sum to the input length plus the
carried count. -/
theorem runLengthsAux_sum (t : List Int) (a : Int) (n : Nat) :
    (runLengthsAux a n t).sum = n + t.length := by
  induction t generalizing a n with
  | nil => simp [runLengthsAux]
  | cons b t' ih =>
    simp only [runLengthsAux]
    split
    · rw [ih]
      simp [Nat.add_assoc, Nat.add_comm 1]
    · simp [List.sum_cons, ih]
      omega

/-- Run lengths sum to the length of the list. -/
theorem runLengths_sum (l : List Int) : (runLengths l).sum = l.length := by
  cases l with
  | nil => rfl
  | cons a t => simp [runLengths, runLengthsAux_sum, Nat.add_comm]

/-- One group per run count. -/
theorem groupsFrom_length {α : Type} (row : Nat → α) (start : Nat) (cs : List Nat) :
    (groupsFrom row start cs).length = cs.length := by
  induction cs generalizing start with
  | nil => rfl
  | cons c cs' ih => simp [groupsFrom, ih]

/-- Group sizes are exactly the run counts, in order. -/
theorem groupsFrom_map_length {α : Type} (row : Nat → α) (start : Nat) (cs : List Nat) :
    (groupsFrom row start cs).map List.length = cs := by
  induction cs generalizing start with
  | nil => rfl
  | cons c cs' ih => simp [groupsFrom, ih]

/-- Concatenating the groups reads back the row over the whole covered
range. -/
theorem groupsFrom_join {α : Type} (row : Nat → α) (start : Nat) (cs : List Nat) :
    (groupsFrom row start cs).flatten = (List.range cs.sum).map (fun j => row (start + j)) := by
  induction cs generalizing start with
  | nil => rfl
  | cons c cs' ih =>
    simp only [groupsFrom, List.flatten_cons, List.sum_cons, ih, List.range_add, List.map_append,
      List.map_map]
    congr 1
    simp [Function.comp, Nat.add_assoc]

/-- The number of runs does not depend on the carried count. -/
theorem runLengthsAux_length_indep (t : List Int) (a : Int) (n m : Nat) :
    (runLengthsAux a n t).length = (runLengthsAux a m t).length := by
  induction t generalizing n m with
  | nil => rfl
  | cons b t' ih =>
    simp only [runLengthsAux]
    split
    · exact ih _ _
    · simp

/-- Two-step recurrence for the number of runs. -/
theorem runLengths_length_cons_cons (a b : Int) (t : List Int) :
    (runLengths (a :: b :: t)).length
      = (if b = a then 0 else 1) + (runLengths (b :: t)).length := by
  simp only [runLengths, runLengthsAux]
  split
  · rename_i hba
    rw [runLengthsAux_length_indep t a 2 1, hba]
    simp
  · simp [Nat.add_comm]

/-- For a non-decreasing list the number of runs of consecutive equal values
equals the number of distinct values. -/
theorem runLengths_length_chain (l : List Int) (h : List.Chain' (· ≤ ·) l) :
    (runLengths l).length = l.toFinset.card := by
  induction l with
  | nil => simp [runLengths]
  | cons a t ih =>
    cases t with
    | nil => simp [runLengths, runLengthsAux]
    | cons b t' =>
      have hab : a ≤ b := (List.chain'_cons.mp h).1
      have ht : List.Chain' (· ≤ ·) (b :: t') := (List.chain'_cons.mp h).2
      have ihb := ih ht
      rw [runLengths_length_cons_cons, ihb]
      by_cases hba : b = a
      · subst hba
        simp [List.toFinset_cons, Finset.insert_idem]
      · have halt : a < b := lt_of_le_of_ne hab (fun hei => hba hei.symm)
        have hpw : List.Pairwise (· ≤ ·) (b :: t') :=
          List.chain'_iff_pairwise.mp ht
        have hbt : ∀ x ∈ t', b ≤ x := (List.pairwise_cons.mp hpw).1
        have hnmem : a ∉ (b :: t').toFinset := by
          intro hmem
          rcases List.mem_cons.mp (List.mem_toFinset.mp hmem) with rfl | hat
          · exact absurd rfl (ne_of_lt halt)
          · exact absurd rfl (ne_of_lt (lt_of_lt_of_le halt (hbt a hat)))
        have hgoal : (a :: b :: t').toFinset = insert a ((b :: t').toFinset) := by simp
        rw [if_neg hba, hgoal, Finset.card_insert_of_not_mem hnmem]
        omega

/-- Mapping over every group commutes with grouping. -/
theorem groupsFrom_map {α β : Type} (f : α → β) (row : Nat → α) (start : Nat)
    (cs : List Nat) :
    (groupsFrom row start cs).map (List.map f) = groupsFrom (fun p => f (row p)) start cs := by
  induction cs generalizing start with
  | nil => rfl
  | cons c cs' ih => simp [groupsFrom, ih]

/-- Claim C9: materializing a greedy buffer together with an alignment buffer
whose recorded timesteps for item `i` are non-decreasing yields, for that
item, one alignment group per run of consecutive equal timesteps in time
order (group sizes are the run lengths), the number of groups equals the
number of distinct recorded frames, and concatenating the groups' label
lists reproduces the raw per-frame label trace. -/
theorem alignment_grouping_reconstruction
    (s : BatchedHyps) (al : BatchedAlignments) (i : Nat) (hi : i < s.batchSize)
    (hal : al.withAlignments = true)
    (hsort : List.Chain' (· ≤ ·) ((List.range (al.currentLengths i)).map (al.timesteps i)))
    (res : List Hypothesis)
    (hres : batched_hyps_to_hypotheses s (some al) none = .ok res) :
    res[i]? = some (materializeAlignedOne s al i) ∧
    (∃ gs, (materializeAlignedOne s al i).alignments = some gs ∧
      gs.map List.length
        = runLengths ((List.range (al.currentLengths i)).map (al.timesteps i)) ∧
      gs.length
        = ((List.range (al.currentLengths i)).map (al.timesteps i)).toFinset.card ∧
      (gs.map (fun g => g.map Prod.snd)).flatten
        = (List.range (al.currentLengths i)).map (al.labels i)) := by
  constructor
  · simp only [batched_hyps_to_hypotheses, Except.ok.injEq] at hres
    subst hres
    rw [List.getElem?_map, List.getElem?_range hi]
    rfl
  · refine ⟨groupsFrom (fun p => (al.logits i p, al.labels i p)) 0
      (runLengths ((List.range (al.currentLengths i)).map (al.timesteps i))), ?_, ?_, ?_, ?_⟩
    · simp [materializeAlignedOne, hal]
    · exact groupsFrom_map_length _ _ _
    · rw [groupsFrom_length, runLengths_length_chain _ hsort]
    · rw [groupsFrom_map, groupsFrom_join, runLengths_sum]
      simp

/-- Alignment buffer holding the per-frame trace `timesteps=[0,0,1,2,2,2]`,
`labels=[blank,3,blank,5,blank,7]` for item 0. -/
def wAlign : BatchedAlignments :=
  { batchSize := 1, maxLength := 8, withAlignments := true, withFrameConfidence := false
    currentLengths := fun _ => 6
    timesteps := fun _ p => [0, 0, 1, 2, 2, 2].getD p 0
    logits := fun _ _ => []
    labels := fun _ p => [1024, 3, 1024, 5, 1024, 7].getD p 0
    frameConfidence := fun _ _ => 0 }

/-- Witness for C9 at the concrete trace `[0,0,1,2,2,2]`: three groups of
sizes `[2,1,3]`. -/
theorem alignment_grouping_reconstruction_witness :
    (0 < gRun3.batchSize) ∧ wAlign.withAlignments = true ∧
    List.Chain' (· ≤ ·) ((List.range (wAlign.currentLengths 0)).map (wAlign.timesteps 0)) ∧
    runLengths ((List.range (wAlign.currentLengths 0)).map (wAlign.timesteps 0)) = [2, 1, 3] ∧
    batched_hyps_to_hypotheses gRun3 (some wAlign) none
      = .ok [materializeAlignedOne gRun3 wAlign 0] ∧
    (([materializeAlignedOne gRun3 wAlign 0] : List Hypothesis)[0]?
        = some (materializeAlignedOne gRun3 wAlign 0) ∧
      (∃ gs, (materializeAlignedOne gRun3 wAlign 0).alignments = some gs ∧
        gs.map List.length
          = runLengths ((List.range (wAlign.currentLengths 0)).map (wAlign.timesteps 0)) ∧
        gs.length
          = ((List.range (wAlign.currentLengths 0)).map (wAlign.timesteps 0)).toFinset.card ∧
        (gs.map (fun g => g.map Prod.snd)).flatten
          = (List.range (wAlign.currentLengths 0)).map (wAlign.labels 0))) := by
  have hchain : List.Chain' (· ≤ ·)
      ((List.range (wAlign.currentLengths 0)).map (wAlign.timesteps 0)) := by
    norm_num [wAlign, List.range_succ, List.chain'_cons]
  exact ⟨Nat.zero_lt_one, rfl, hchain, by decide, rfl,
    alignment_grouping_reconstruction gRun3 wAlign 0 Nat.zero_lt_one rfl hchain
      [materializeAlignedOne gRun3 wAlign 0] rfl⟩

/-! ### Claims C1 and C8 -/

/-- One decode step's inputs, shared by the two append paths: the boolean
mask used by the mask path, the index list used by the index path, and the
per-item labels, time indices and score increments. -/
structure StepInput where
  mask : Nat → Bool
  active_indices : List Nat
  labels : Nat → Int
  time_indices : Nat → Int
  step_scores : Nat → Rat

/-- A step encodes the same logical update on both paths: the active index
list holds exactly the in-range items whose mask bit is set. -/
def ValidStep (B : Nat) (st : StepInput) : Prop :=
  ∀ b, b ∈ st.active_indices ↔ (b < B ∧ st.mask b = true)

/-- Fold a sequence of `add_results_` calls (index path). -/
def runIndexPath (s : BatchedHyps) (steps : List StepInput) : BatchedHyps :=
  steps.foldl
    (fun t st => t.add_results_ st.active_indices st.labels st.time_indices st.step_scores) s

/-- Fold a sequence of `add_results_masked_` calls (mask path). -/
def runMaskPath (s : BatchedHyps) (steps : List StepInput) : BatchedHyps :=
  steps.foldl
    (fun t st => t.add_results_masked_ st.mask st.labels st.time_indices st.step_scores) s

/-- Two buffer states have identical logical contents: equal batch size and,
per in-range item, equal cursors, scores, last-timestep bookkeeping and equal
stored prefixes `transcript[b, 0:current_lengths[b]]` /
`timesteps[b, 0:current_lengths[b]]`. -/
def LogEquiv (s t : BatchedHyps) : Prop :=
  s.batchSize = t.batchSize ∧
  ∀ b, b < s.batchSize →
    s.currentLengths b = t.currentLengths b ∧
    s.scores b = t.scores b ∧
    s.lastTimestep b = t.lastTimestep b ∧
    s.lastTimestepLasts b = t.lastTimestepLasts b ∧
    ∀ p, p < s.currentLengths b →
      s.transcript b p = t.transcript b p ∧ s.timesteps b p = t.timesteps b p

/-- Capacity invariant maintained by both append paths: positive capacity and
every in-range cursor within capacity. -/
def CapInv (s : BatchedHyps) : Prop :=
  1 ≤ s.maxLength ∧ ∀ b, b < s.batchSize → s.currentLengths b ≤ s.maxLength

/-- A max-fold dominates its initial accumulator. -/
theorem foldl_max_le_init {f : Nat → Nat} :
    ∀ (l : List Nat) (a : Nat), a ≤ l.foldl (fun m b => max m (f b)) a := by
  intro l
  induction l with
  | nil => intro a; exact le_refl a
  | cons x xs ih => intro a; exact le_trans (Nat.le_max_left a (f x)) (ih _)

/-- A max-fold dominates every entry. -/
theorem le_foldl_max {f : Nat → Nat} :
    ∀ (l : List Nat) (a b : Nat), b ∈ l → f b ≤ l.foldl (fun m b => max m (f b)) a := by
  intro l
  induction l with
  | nil => intro a b hb; cases hb
  | cons x xs ih =>
    intro a b hb
    rcases List.mem_cons.mp hb with rfl | hxs
    · exact le_trans (Nat.le_max_right a (f b)) (foldl_max_le_init xs _)
    · exact ih _ b hxs

/-- `tensor.max()` dominates every in-range entry. -/
theorem le_natMaxOver {n b : Nat} {f : Nat → Nat} (h : b < n) : f b ≤ natMaxOver n f :=
  le_foldl_max (List.range n) 0 b (List.mem_range.mpr h)

/-- `LogEquiv` is reflexive. -/
theorem logEquiv_refl (s : BatchedHyps) : LogEquiv s s :=
  ⟨rfl, fun _ _ => ⟨rfl, rfl, rfl, rfl, fun _ _ => ⟨rfl, rfl⟩⟩⟩

/-- `LogEquiv` is symmetric. -/
theorem logEquiv_symm {s t : BatchedHyps} (h : LogEquiv s t) : LogEquiv t s := by
  obtain ⟨hB, hf⟩ := h
  refine ⟨hB.symm, fun b hb => ?_⟩
  obtain ⟨h1, h2, h3, h4, h5⟩ := hf b (hB ▸ hb)
  exact ⟨h1.symm, h2.symm, h3.symm, h4.symm, fun p hp =>
    ⟨(h5 p (h1 ▸ hp)).1.symm, (h5 p (h1 ▸ hp)).2.symm⟩⟩

/-- `LogEquiv` is transitive. -/
theorem logEquiv_trans {s t u : BatchedHyps} (h1 : LogEquiv s t) (h2 : LogEquiv t u) :
    LogEquiv s u := by
  obtain ⟨hB1, hf1⟩ := h1
  obtain ⟨hB2, hf2⟩ := h2
  refine ⟨hB1.trans hB2, fun b hb => ?_⟩
  obtain ⟨a1, a2, a3, a4, a5⟩ := hf1 b hb
  obtain ⟨b1, b2, b3, b4, b5⟩ := hf2 b (hB1 ▸ hb)
  exact ⟨a1.trans b1, a2.trans b2, a3.trans b3, a4.trans b4, fun p hp =>
    ⟨(a5 p hp).1.trans (b5 p (a1 ▸ hp)).1, (a5 p hp).2.trans (b5 p (a1 ▸ hp)).2⟩⟩

/-- Capacity doubling does not change the logical contents: in-range
prefixes lie below the old capacity. -/
theorem logEquiv_allocate_left {s t : BatchedHyps} (hc : CapInv s) (he : LogEquiv s t) :
    LogEquiv s.allocate_more t := by
  obtain ⟨hB, hf⟩ := he
  refine ⟨hB, fun b hb => ?_⟩
  obtain ⟨h1, h2, h3, h4, h5⟩ := hf b hb
  refine ⟨h1, h2, h3, h4, fun p hp => ?_⟩
  have hplt : p < s.maxLength := lt_of_lt_of_le hp (hc.2 b hb)
  constructor
  · show (if p < s.maxLength then s.transcript b p else 0) = t.transcript b p
    rw [if_pos hplt]
    exact (h5 p hp).1
  · show (if p < s.maxLength then s.timesteps b p else 0) = t.timesteps b p
    rw [if_pos hplt]
    exact (h5 p hp).2

/-- Conditional capacity doubling on either side preserves `LogEquiv`. -/
theorem logEquiv_opt_allocate {s t : BatchedHyps} (c1 c2 : Prop) [Decidable c1] [Decidable c2]
    (hcs : CapInv s) (hct : CapInv t) (he : LogEquiv s t) :
    LogEquiv (if c1 then s.allocate_more else s) (if c2 then t.allocate_more else t) := by
  split <;> split
  · exact logEquiv_allocate_left hcs
      (logEquiv_symm (logEquiv_allocate_left hct (logEquiv_symm he)))
  · exact logEquiv_allocate_left hcs he
  · exact logEquiv_symm (logEquiv_allocate_left hct (logEquiv_symm he))
  · exact he

/-- `add_results_` preserves the capacity invariant. -/
theorem capInv_add_results {s : BatchedHyps} (active : List Nat) (labels tIdx : Nat → Int)
    (sc : Nat → Rat) (h : CapInv s) : CapInv (s.add_results_ active labels tIdx sc) := by
  simp only [BatchedHyps.add_results_]
  split
  · exact h
  · split
    · refine ⟨?_, fun b hb => ?_⟩
      · show 1 ≤ 2 * s.maxLength
        have := h.1
        omega
      · show (if b ∈ active then s.currentLengths b + 1 else s.currentLengths b)
            ≤ 2 * s.maxLength
        have h1 := h.1
        have h2 := h.2 b hb
        split <;> omega
    · rename_i hlt
      refine ⟨h.1, fun b hb => ?_⟩
      have hb' : b < s.batchSize := hb
      show (if b ∈ active then s.currentLengths b + 1 else s.currentLengths b) ≤ s.maxLength
      have hble : s.currentLengths b ≤ natMaxOver s.batchSize s.currentLengths :=
        le_natMaxOver hb'
      split <;> omega

/-- `add_results_masked_` preserves the capacity invariant. -/
theorem capInv_add_results_masked {s : BatchedHyps} (mask : Nat → Bool)
    (labels tIdx : Nat → Int) (sc : Nat → Rat) (h : CapInv s) :
    CapInv (s.add_results_masked_ mask labels tIdx sc) := by
  simp only [BatchedHyps.add_results_masked_]
  split
  · refine ⟨?_, fun b hb => ?_⟩
    · show 1 ≤ 2 * s.maxLength
      have := h.1
      omega
    · show s.currentLengths b + (if mask b then 1 else 0) ≤ 2 * s.maxLength
      have h1 := h.1
      have h2 := h.2 b hb
      split <;> omega
  · rename_i hlt
    refine ⟨h.1, fun b hb => ?_⟩
    have hb' : b < s.batchSize := hb
    show s.currentLengths b + (if mask b then 1 else 0) ≤ s.maxLength
    have hble := @le_natMaxOver s.batchSize b
      (fun b => s.currentLengths b + (if mask b then 1 else 0)) hb'
    have hble2 : s.currentLengths b + (if mask b then 1 else 0)
        ≤ natMaxOver s.batchSize (fun b => s.currentLengths b + (if mask b then 1 else 0)) :=
      hble
    omega

/-- Core step equivalence: on logically equal states, the index-path scatter
and the mask-path branch-free update of one valid step leave logically equal
states (the mask path's out-of-prefix writes at inactive cursors are
invisible to the logical contents). -/
theorem logEquiv_no_checks_index_mask {s t : BatchedHyps} (st : StepInput)
    (he : LogEquiv s t) (hv : ValidStep s.batchSize st) :
    LogEquiv
      (s.add_results_no_checks_ st.active_indices st.labels st.time_indices st.step_scores)
      (t.add_results_masked_no_checks_ st.mask st.labels st.time_indices st.step_scores) := by
  obtain ⟨hB, hf⟩ := he
  refine ⟨hB, fun b hb => ?_⟩
  have hb' : b < s.batchSize := hb
  obtain ⟨h1, h2, h3, h4, h5⟩ := hf b hb'
  have hiff := hv b
  simp only [BatchedHyps.add_results_no_checks_, BatchedHyps.add_results_masked_no_checks_]
  by_cases hmem : b ∈ st.active_indices
  · have hmask : st.mask b = true := (hiff.mp hmem).2
    refine ⟨by simp [hmem, hmask, h1], by simp [hmem, hmask, h2], by simp [hmem, hmask, h3],
      ?_, ?_⟩
    · rw [h3, h4]
      by_cases hlast : t.lastTimestep b = st.time_indices b <;> simp [hmem, hmask, hlast]
    · intro p hp
      have hp' : p < s.currentLengths b + 1 := by
        simpa [hmem] using hp
      by_cases hpe : p = s.currentLengths b
      · subst hpe
        constructor
        · simp [hmem, h1]
        · simp [hmem, h1]
      · have hplt : p < s.currentLengths b := by omega
        have hpt : p ≠ t.currentLengths b := by omega
        constructor
        · simp [hmem, hpe, hpt, (h5 p hplt).1]
        · simp [hmem, hpe, hpt, (h5 p hplt).2]
  · have hmask : st.mask b = false := by
      by_contra hc
      exact hmem (hiff.mpr ⟨hb', by revert hc; cases st.mask b <;> simp⟩)
    refine ⟨by simp [hmem, hmask, h1], by simp [hmem, hmask, h2], by simp [hmem, hmask, h3],
      by simp [hmem, hmask, h4], ?_⟩
    intro p hp
    have hplt : p < s.currentLengths b := by
      simpa [hmem] using hp
    have hpt : p ≠ t.currentLengths b := by omega
    constructor
    · simp [hmem, hpt, (h5 p hplt).1]
    · simp [hmem, hpt, (h5 p hplt).2]

/-- The index-path scatter preserves `LogEquiv` between two states (used for
capacity independence). -/
theorem logEquiv_no_checks_index_index {s t : BatchedHyps} (active : List Nat)
    (labels tIdx : Nat → Int) (sc : Nat → Rat) (he : LogEquiv s t) :
    LogEquiv (s.add_results_no_checks_ active labels tIdx sc)
      (t.add_results_no_checks_ active labels tIdx sc) := by
  obtain ⟨hB, hf⟩ := he
  refine ⟨hB, fun b hb => ?_⟩
  have hb' : b < s.batchSize := hb
  obtain ⟨h1, h2, h3, h4, h5⟩ := hf b hb'
  simp only [BatchedHyps.add_results_no_checks_]
  by_cases hmem : b ∈ active
  · refine ⟨by simp [hmem, h1], by simp [hmem, h2], by simp [hmem, h3], ?_, ?_⟩
    · rw [h3, h4]
    · intro p hp
      have hp' : p < s.currentLengths b + 1 := by
        simpa [hmem] using hp
      by_cases hpe : p = s.currentLengths b
      · subst hpe
        constructor
        · simp [hmem, h1]
        · simp [hmem, h1]
      · have hplt : p < s.currentLengths b := by omega
        have hpt : p ≠ t.currentLengths b := by omega
        constructor
        · simp [hmem, hpe, hpt, (h5 p hplt).1]
        · simp [hmem, hpe, hpt, (h5 p hplt).2]
  · refine ⟨by simp [hmem, h1], by simp [hmem, h2], by simp [hmem, h3], by simp [hmem, h4], ?_⟩
    intro p hp
    have hplt : p < s.currentLengths b := by
      simpa [hmem] using hp
    constructor
    · simp [hmem, (h5 p hplt).1]
    · simp [hmem, (h5 p hplt).2]

/-- `add_results_` keeps the batch size. -/
theorem batchSize_add_results (s : BatchedHyps) (active : List Nat)
    (labels tIdx : Nat → Int) (sc : Nat → Rat) :
    (s.add_results_ active labels tIdx sc).batchSize = s.batchSize := by
  simp only [BatchedHyps.add_results_]
  split
  · rfl
  · split <;> rfl

/-- `add_results_masked_` keeps the batch size. -/
theorem batchSize_add_results_masked (s : BatchedHyps) (mask : Nat → Bool)
    (labels tIdx : Nat → Int) (sc : Nat → Rat) :
    (s.add_results_masked_ mask labels tIdx sc).batchSize = s.batchSize := by
  simp only [BatchedHyps.add_results_masked_]
  split <;> rfl

/-- A masked update whose mask is all-false on the real batch leaves the
logical contents unchanged. -/
theorem logEquiv_masked_all_inactive {t : BatchedHyps} (st : StepInput)
    (hmask : ∀ b, b < t.batchSize → st.mask b = false) :
    LogEquiv t
      (t.add_results_masked_no_checks_ st.mask st.labels st.time_indices st.step_scores) := by
  refine ⟨rfl, fun b hb => ?_⟩
  have hm := hmask b hb
  simp only [BatchedHyps.add_results_masked_no_checks_]
  refine ⟨by simp [hm], by simp [hm], by simp [hm], by simp [hm], ?_⟩
  intro p hp
  have hpt : p ≠ t.currentLengths b := by omega
  constructor <;> simp [hpt]

/-- One checked index-path step and one checked mask-path step encoding the
same logical update preserve `LogEquiv` (the index path returns early on an
empty active set while the mask path may still grow; growth is logically
invisible). -/
theorem logEquiv_step_index_mask {s t : BatchedHyps} (st : StepInput)
    (hcs : CapInv s) (hct : CapInv t) (he : LogEquiv s t) (hv : ValidStep s.batchSize st) :
    LogEquiv (s.add_results_ st.active_indices st.labels st.time_indices st.step_scores)
      (t.add_results_masked_ st.mask st.labels st.time_indices st.step_scores) := by
  by_cases hemp : st.active_indices = []
  · have hmaskf : ∀ b, b < t.batchSize → st.mask b = false := by
      intro b hb
      by_contra hc
      have hbmem : b ∈ st.active_indices :=
        (hv b).mpr ⟨he.1 ▸ hb, by revert hc; cases st.mask b <;> simp⟩
      rw [hemp] at hbmem
      cases hbmem
    simp only [BatchedHyps.add_results_, if_pos hemp, BatchedHyps.add_results_masked_]
    split
    · exact logEquiv_trans
        (logEquiv_symm (logEquiv_allocate_left hct (logEquiv_symm he)))
        (logEquiv_masked_all_inactive st (fun b hb => hmaskf b hb))
    · exact logEquiv_trans he (logEquiv_masked_all_inactive st hmaskf)
  · simp only [BatchedHyps.add_results_, if_neg hemp, BatchedHyps.add_results_masked_]
    split <;> split
    · exact logEquiv_no_checks_index_mask st
        (logEquiv_allocate_left hcs
          (logEquiv_symm (logEquiv_allocate_left hct (logEquiv_symm he)))) hv
    · exact logEquiv_no_checks_index_mask st (logEquiv_allocate_left hcs he) hv
    · exact logEquiv_no_checks_index_mask st
        (logEquiv_symm (logEquiv_allocate_left hct (logEquiv_symm he))) hv
    · exact logEquiv_no_checks_index_mask st he hv

/-- One checked index-path step preserves `LogEquiv` across different
capacities. -/
theorem logEquiv_step_index_index {s t : BatchedHyps} (active : List Nat)
    (labels tIdx : Nat → Int) (sc : Nat → Rat)
    (hcs : CapInv s) (hct : CapInv t) (he : LogEquiv s t) :
    LogEquiv (s.add_results_ active labels tIdx sc) (t.add_results_ active labels tIdx sc) := by
  by_cases hemp : active = []
  · simp only [BatchedHyps.add_results_, if_pos hemp]
    exact he
  · simp only [BatchedHyps.add_results_, if_neg hemp]
    split <;> split
    · exact logEquiv_no_checks_index_index active labels tIdx sc
        (logEquiv_allocate_left hcs
          (logEquiv_symm (logEquiv_allocate_left hct (logEquiv_symm he))))
    · exact logEquiv_no_checks_index_index active labels tIdx sc
        (logEquiv_allocate_left hcs he)
    · exact logEquiv_no_checks_index_index active labels tIdx sc
        (logEquiv_symm (logEquiv_allocate_left hct (logEquiv_symm he)))
    · exact logEquiv_no_checks_index_index active labels tIdx sc he

/-- Induction over a valid step sequence: the index path and the mask path
stay logically equal. -/
theorem runs_index_mask_logEquiv (steps : List StepInput) :
    ∀ s t : BatchedHyps, CapInv s → CapInv t → LogEquiv s t →
      (∀ st ∈ steps, ValidStep s.batchSize st) →
      LogEquiv (runIndexPath s steps) (runMaskPath t steps) := by
  induction steps with
  | nil =>
    intro s t _ _ he _
    exact he
  | cons st rest ih =>
    intro s t hcs hct he hv
    have hstep := logEquiv_step_index_mask st hcs hct he (hv st (List.mem_cons_self st rest))
    apply ih _ _
      (capInv_add_results st.active_indices st.labels st.time_indices st.step_scores hcs)
      (capInv_add_results_masked st.mask st.labels st.time_indices st.step_scores hct)
      hstep
    intro st' hst'
    have hvs := hv st' (List.mem_cons_of_mem st hst')
    rwa [batchSize_add_results]

/-- Induction over a step sequence: the index path run from two logically
equal states of any capacities stays logically equal. -/
theorem runs_index_index_logEquiv (steps : List StepInput) :
    ∀ s t : BatchedHyps, CapInv s → CapInv t → LogEquiv s t →
      LogEquiv (runIndexPath s steps) (runIndexPath t steps) := by
  induction steps with
  | nil =>
    intro s t _ _ he
    exact he
  | cons st rest ih =>
    intro s t hcs hct he
    exact ih _ _
      (capInv_add_results st.active_indices st.labels st.time_indices st.step_scores hcs)
      (capInv_add_results st.active_indices st.labels st.time_indices st.step_scores hct)
      (logEquiv_step_index_index st.active_indices st.labels st.time_indices st.step_scores
        hcs hct he)

/-- An `add_results_` call advances the cursor of each active item by one. -/
theorem currentLengths_add_results_mem {s : BatchedHyps} {active : List Nat} {b : Nat}
    (hmem : b ∈ active) (labels tIdx : Nat → Int) (sc : Nat → Rat) :
    (s.add_results_ active labels tIdx sc).currentLengths b = s.currentLengths b + 1 := by
  have hne : active ≠ [] := by
    intro h
    rw [h] at hmem
    cases hmem
  simp only [BatchedHyps.add_results_, if_neg hne]
  split <;> simp [BatchedHyps.add_results_no_checks_, BatchedHyps.allocate_more, hmem]

/-- After `N` steps each containing item `b`, the cursor of `b` advanced by
`N`. -/
theorem currentLengths_runIndexPath (steps : List StepInput) :
    ∀ (s : BatchedHyps) (b : Nat), (∀ st ∈ steps, b ∈ st.active_indices) →
      (runIndexPath s steps).currentLengths b = s.currentLengths b + steps.length := by
  induction steps with
  | nil =>
    intro s b _
    rfl
  | cons st rest ih =>
    intro s b hall
    show (runIndexPath
      (s.add_results_ st.active_indices st.labels st.time_indices st.step_scores)
      rest).currentLengths b = _
    rw [ih _ b (fun st' h => hall st' (List.mem_cons_of_mem st h)),
      currentLengths_add_results_mem (hall st (List.mem_cons_self st rest))]
    simp [List.length_cons]
    omega

/-- The index path keeps the batch size. -/
theorem batchSize_runIndexPath (steps : List StepInput) :
    ∀ s : BatchedHyps, (runIndexPath s steps).batchSize = s.batchSize := by
  induction steps with
  | nil =>
    intro s
    rfl
  | cons st rest ih =>
    intro s
    show (runIndexPath
      (s.add_results_ st.active_indices st.labels st.time_indices st.step_scores)
      rest).batchSize = _
    rw [ih, batchSize_add_results]

/-- The freshly constructed greedy buffer state (the record built by
`BatchedHyps.init` after validation). -/
def BatchedHyps.initState (batch_size init_length : Nat) : BatchedHyps :=
  { batchSize := batch_size
    maxLength := init_length
    currentLengths := fun _ => 0
    transcript := fun _ _ => 0
    timesteps := fun _ _ => 0
    scores := fun _ => 0
    lastTimestep := fun _ => -1
    lastTimestepLasts := fun _ => 0 }

/-- Successful construction forces a positive capacity and the fresh state. -/
theorem init_ok_elim {B L : Nat} {s : BatchedHyps} (h : BatchedHyps.init B L = .ok s) :
    1 ≤ L ∧ s = BatchedHyps.initState B L := by
  simp only [BatchedHyps.init] at h
  split at h
  · exact Except.noConfusion h
  · split at h
    · exact Except.noConfusion h
    · rename_i h1 h2
      simp only [Except.ok.injEq] at h
      exact ⟨by omega, h.symm⟩

/-- Claim C1: for every sequence of valid append calls in which the
index-based path (`add_results_`) and the mask-based path
(`add_results_masked_`) encode the same logical updates, the two paths leave
the greedy buffer with identical final logical contents: per item, the same
scores, cursors, last-timestep bookkeeping, and the same stored
transcript/timesteps prefixes. -/
theorem index_and_mask_paths_equivalent
    (B L : Nat) (s0 : BatchedHyps) (hinit : BatchedHyps.init B L = .ok s0)
    (steps : List StepInput) (hv : ∀ st ∈ steps, ValidStep B st) :
    LogEquiv (runIndexPath s0 steps) (runMaskPath s0 steps) := by
  obtain ⟨hL, hs⟩ := init_ok_elim hinit
  have hcap : CapInv s0 := by
    subst hs
    exact ⟨hL, fun b _ => Nat.zero_le L⟩
  have hB : s0.batchSize = B := by
    subst hs
    rfl
  apply runs_index_mask_logEquiv steps s0 s0 hcap hcap (logEquiv_refl s0)
  rw [hB]
  exact hv

/-- Claim C8: capacity growth preserves all previously written in-range data:
running the same `N` all-active append steps from initial capacity `1`
(forcing repeated doubling) and from a buffer pre-sized to `M ≥ N` yields the
same final `labels[b,0:N]` and `timesteps[b,0:N]` for every item, with both
cursors equal to `N`. -/
theorem growth_preserves_written_data
    (B N M : Nat) (steps : List StepInput) (hlen : steps.length = N) (hM : N ≤ M)
    (s1 sM : BatchedHyps)
    (h1 : BatchedHyps.init B 1 = .ok s1) (hM0 : BatchedHyps.init B M = .ok sM)
    (hact : ∀ st ∈ steps, ∀ b, b < B → b ∈ st.active_indices) :
    ∀ b, b < B →
      (runIndexPath s1 steps).currentLengths b = N ∧
      (runIndexPath sM steps).currentLengths b = N ∧
      ∀ p, p < N →
        (runIndexPath s1 steps).transcript b p = (runIndexPath sM steps).transcript b p ∧
        (runIndexPath s1 steps).timesteps b p = (runIndexPath sM steps).timesteps b p := by
  obtain ⟨hL1, hs1⟩ := init_ok_elim h1
  obtain ⟨hLM, hsM⟩ := init_ok_elim hM0
  have hcap1 : CapInv s1 := by
    subst hs1
    exact ⟨le_refl 1, fun b _ => Nat.zero_le 1⟩
  have hcapM : CapInv sM := by
    subst hsM
    exact ⟨hLM, fun b _ => Nat.zero_le M⟩
  have he0 : LogEquiv s1 sM := by
    subst hs1
    subst hsM
    exact ⟨rfl, fun b _ => ⟨rfl, rfl, rfl, rfl, fun p hp => (Nat.not_lt_zero p hp).elim⟩⟩
  have hfin := runs_index_index_logEquiv steps s1 sM hcap1 hcapM he0
  intro b hb
  have hlen1 : (runIndexPath s1 steps).currentLengths b = N := by
    rw [currentLengths_runIndexPath steps s1 b (fun st h => hact st h b hb), hlen]
    subst hs1
    simp [BatchedHyps.initState]
  have hlenM : (runIndexPath sM steps).currentLengths b = N := by
    rw [currentLengths_runIndexPath steps sM b (fun st h => hact st h b hb), hlen]
    subst hsM
    simp [BatchedHyps.initState]
  refine ⟨hlen1, hlenM, fun p hp => ?_⟩
  have hb' : b < (runIndexPath s1 steps).batchSize := by
    rw [batchSize_runIndexPath]
    subst hs1
    exact hb
  obtain ⟨hc, _, _, _, hpre⟩ := hfin.2 b hb'
  exact hpre p (by omega)

/-- A valid step appending label `3` at frame `0` to the only item of a
batch of size 1. -/
def c1Step : StepInput :=
  { mask := fun b => b == 0, active_indices := [0], labels := fun _ => 3,
    time_indices := fun _ => 0, step_scores := fun _ => 0 }

/-- A valid step appending label `5` at frame `1` to the only item of a
batch of size 1. -/
def c8Step : StepInput :=
  { mask := fun b => b == 0, active_indices := [0], labels := fun _ => 5,
    time_indices := fun _ => 1, step_scores := fun _ => 0 }

/-- Witness for C1 at a concrete input: one valid step on a batch of size 1
with initial capacity 1. -/
theorem index_and_mask_paths_equivalent_witness :
    BatchedHyps.init 1 1 = .ok gState0 ∧
    (∀ st ∈ [c1Step], ValidStep 1 st) ∧
    LogEquiv (runIndexPath gState0 [c1Step]) (runMaskPath gState0 [c1Step]) := by
  have hv : ∀ st ∈ [c1Step], ValidStep 1 st := by
    intro st hst
    rcases List.mem_singleton.mp hst with rfl
    intro b
    simp [c1Step, Nat.lt_one_iff]
  exact ⟨rfl, hv, index_and_mask_paths_equivalent 1 1 gState0 rfl [c1Step] hv⟩

/-- Witness for C8 at a concrete input: two steps from capacity 1 versus
capacity 2. -/
theorem growth_preserves_written_data_witness :
    ([c1Step, c8Step] : List StepInput).length = 2 ∧ 2 ≤ 2 ∧
    BatchedHyps.init 1 1 = .ok gState0 ∧
    BatchedHyps.init 1 2 = .ok (BatchedHyps.initState 1 2) ∧
    (∀ st ∈ [c1Step, c8Step], ∀ b, b < 1 → b ∈ st.active_indices) ∧
    (∀ b, b < 1 →
      (runIndexPath gState0 [c1Step, c8Step]).currentLengths b = 2 ∧
      (runIndexPath (BatchedHyps.initState 1 2) [c1Step, c8Step]).currentLengths b = 2 ∧
      ∀ p, p < 2 →
        (runIndexPath gState0 [c1Step, c8Step]).transcript b p
          = (runIndexPath (BatchedHyps.initState 1 2) [c1Step, c8Step]).transcript b p ∧
        (runIndexPath gState0 [c1Step, c8Step]).timesteps b p
          = (runIndexPath (BatchedHyps.initState 1 2) [c1Step, c8Step]).timesteps b p) := by
  have hact : ∀ st ∈ [c1Step, c8Step], ∀ b, b < 1 → b ∈ st.active_indices := by
    intro st hst b hb
    have hb0 : b = 0 := by omega
    subst hb0
    rcases List.mem_cons.mp hst with rfl | hst'
    · simp [c1Step]
    · rcases List.mem_singleton.mp hst' with rfl
      simp [c8Step]
  exact ⟨rfl, le_refl 2, rfl, rfl, hact,
    growth_preserves_written_data 1 2 2 [c1Step, c8Step] rfl (le_refl 2) gState0
      (BatchedHyps.initState 1 2) rfl rfl hact⟩
